import Mathlib

/-!
Verification development for the ir-toolkit evidence-collection agent.

The definitions below are a shallow embedding of the Rust sources:
files are lists of bytes (`List ℕ`, each element a byte value), paths are
strings or component lists, and external libraries (openssl, the
sanitize-filename crate, tokio) are modelled by abstract parameters or by
definitions that follow their documented behaviour.
-/

set_option autoImplicit false

namespace IrToolkit

/-! ## Configuration data model (src/config/src/workflow.rs) -/

/-- The `Algorithm` enum from `config::workflow`. -/
inductive Algorithm where
  | AES128GCM
  | CHACHA20POLY1305
  | None
deriving DecidableEq, Repr

/-- The `Algorithm::block_size` method. -/
def Algorithm.block_size : Algorithm → ℕ
  | .AES128GCM => 4096 * 4
  | .CHACHA20POLY1305 => 4096 * 4
  | .None => 0

/-- The `Algorithm::tag_size` method. -/
def Algorithm.tag_size : Algorithm → ℕ
  | .AES128GCM => 16
  | .CHACHA20POLY1305 => 16
  | .None => 0

/-- The `Algorithm::key_size` method. -/
def Algorithm.key_size : Algorithm → ℕ
  | .AES128GCM => 16
  | .CHACHA20POLY1305 => 32
  | .None => 0

/-- The `Algorithm::iv_size` method. -/
def Algorithm.iv_size : Algorithm → ℕ
  | .AES128GCM => 12
  | .CHACHA20POLY1305 => 12
  | .None => 0

/-- The `CustomCommand` struct. -/
structure CustomCommand where
  cmd : String
  args : Option (List String)
  contains_any : Option (List String)
  contains_all : Option (List String)
  contains_regex : Option String
deriving DecidableEq, Repr

/-- The `LaunchConditions` struct. -/
structure LaunchConditions where
  os : List String
  enabled : Option Bool
  arch : Option (List String)
  is_elevated : Option Bool
  custom_command : Option CustomCommand
deriving DecidableEq, Repr

/-- The `ActionType` enum. -/
inductive ActionType where
  | Binary
  | Command
  | Store
  | Yara
  | Terminal
deriving DecidableEq, Repr

/-- `parallel_action_types`: the action types allowed to run in parallel. -/
def parallel_action_types : List ActionType :=
  [ActionType.Binary, ActionType.Command, ActionType.Terminal]

/-- `timeout_action_types`: the action types that support a timeout. -/
def timeout_action_types : List ActionType :=
  [ActionType.Binary, ActionType.Command]

/-- The `StoreAttributes` struct. -/
structure StoreAttributes where
  case_sensitive : Bool
  patterns : String
  size_limit : ℕ
deriving DecidableEq, Repr

/-- The `BinaryAttributes` struct. -/
structure BinaryAttributes where
  path : String
  args : List String
  log_to_file : Bool
deriving DecidableEq, Repr

/-- The `CommandAttributes` struct. -/
structure CommandAttributes where
  cmd : String
  args : List String
  cwd : String
  log_to_file : Bool
deriving DecidableEq, Repr

/-- The `YaraAttributes` struct. -/
structure YaraAttributes where
  rules_paths : String
  files_to_scan : String
  store_on_match : Bool
  num_threads : ℕ
  scan_timeout : Int
deriving DecidableEq, Repr

/-- The `TerminalAttributes` struct. -/
structure TerminalAttributes where
  shell : String
  wait : Bool
  separate_window : Bool
  enable_transcript : Bool
deriving DecidableEq, Repr

/-- The `ActionAttributes` union. -/
inductive ActionAttributes where
  | Binary (b : BinaryAttributes)
  | Command (c : CommandAttributes)
  | Store (s : StoreAttributes)
  | Terminal (t : TerminalAttributes)
  | Yara (y : YaraAttributes)
deriving DecidableEq, Repr

/-- The `Action` struct. -/
structure Action where
  name : String
  action_type : ActionType
  attributes : ActionAttributes
deriving DecidableEq, Repr

/-- The `ReportingEncryption` struct. -/
structure ReportingEncryption where
  enabled : Bool
  public_key : String
  algorithm : Algorithm
deriving DecidableEq, Repr

/-- The `ReportingCompression` struct. -/
structure ReportingCompression where
  enabled : Bool
  size_limit : ℕ
deriving DecidableEq, Repr

/-- The `ReportingZipArchive` struct. -/
structure ReportingZipArchive where
  enabled : Bool
  encryption : ReportingEncryption
  compression : ReportingCompression
deriving DecidableEq, Repr

/-- The `ReportingMetadata` struct. -/
structure ReportingMetadata where
  mac_times : Bool
  checksums : Bool
  paths : Bool
deriving DecidableEq, Repr

/-- The `Reporting` struct. -/
structure Reporting where
  zip_archive : ReportingZipArchive
  metadata : ReportingMetadata
deriving DecidableEq, Repr

/-- The `OnError` enum. -/
inductive OnError where
  | Goto (goto : String)
  | Abort
  | Continue
deriving DecidableEq, Repr

/-- The `WorkflowItem` struct. -/
structure WorkflowItem where
  action : String
  on_error : OnError
  parallel : Bool
  timeout : Int
  continue_after_keypress : Bool
deriving DecidableEq, Repr

/-- The `WorkflowRunner` struct.  The `properties` HashMap is modelled as
an association list of key/value pairs. -/
structure WorkflowRunner where
  properties : List (String × String)
  launch_conditions : LaunchConditions
  actions : List Action
  workflow : List WorkflowItem
  reporting : Reporting
deriving DecidableEq, Repr

/-! ## Workflow validation (WorkflowRunner::validate, workflow.rs lines 546-725) -/

/-- Rendering of a Rust `{:?}`-formatted string (names validated here
contain no characters that Debug formatting would escape). -/
def rustQuote (s : String) : String := "\"" ++ s ++ "\""

/-- The required-properties check of `validate` (lines 550-557). -/
def validateProperties (r : WorkflowRunner) : List String × Bool :=
  ["title", "version"].foldl
    (fun acc prop =>
      if r.properties.any (fun kv => kv.1 = prop) then acc
      else (acc.1 ++ ["Properties requires the key: " ++ rustQuote prop ++ " (fatal)"],
            true))
    ([], false)

/-- The `custom_command` check of `validate` (lines 559-569). -/
def validateLaunchConditions (lc : LaunchConditions) : LaunchConditions × List String :=
  match lc.custom_command with
  | some cc =>
    if cc.contains_any.isNone && cc.contains_all.isNone && cc.contains_regex.isNone then
      ({ lc with custom_command := none },
       ["custom_command is set, but neither contains_any, contains_all nor contains_regex is set: disabling custom_command"])
    else (lc, [])
  | none => (lc, [])

/-- The three reporting checks of `validate` (lines 571-605), mirrored
condition for condition.  Note that the second and third checks of the
source test `encryption.enabled` where their own comments speak of the
archive being disabled. -/
def validateReporting (rep : Reporting) : Reporting × List String :=
  let za0 := rep.zip_archive
  let p1 := !za0.enabled && (za0.encryption.enabled || za0.compression.enabled)
  let za1 := if p1 then
      { za0 with encryption := { za0.encryption with enabled := false },
                 compression := { za0.compression with enabled := false } }
    else za0
  let c1 := if p1 then
      ["zip_archive is disabled: encryption and compression will be disabled as well"]
    else []
  let p2 := !za1.encryption.enabled && decide (za1.encryption.algorithm ≠ Algorithm.None)
  let za2 := if p2 then
      { za1 with encryption :=
          { za1.encryption with algorithm := Algorithm.None, enabled := false } }
    else za1
  let c2 := if p2 then
      ["report can only be encrypted if zip_archive is enable: disabling encryption"]
    else []
  let p3 := !za2.encryption.enabled && za2.compression.enabled
  let za3 := if p3 then
      { za2 with compression := { za2.compression with enabled := false } }
    else za2
  let c3 := if p3 then
      ["report can only be compressed if zip_archive is enable: disabling compression"]
    else []
  ({ rep with zip_archive := za3 }, c1 ++ c2 ++ c3)

/-- The per-action terminal fixes of `validate` (lines 609-631). -/
def validateAction (a : Action) : Action × List String :=
  match a.action_type, a.attributes with
  | ActionType.Terminal, ActionAttributes.Terminal t =>
    let p1 := !t.wait && !t.separate_window
    let t1 := if p1 then { t with wait := true } else t
    let c1 := if p1 then
        ["Action " ++ rustQuote a.name
          ++ " has both wait and separate_window set to false: setting wait to true"]
      else []
    let p2 := !t1.wait && t1.enable_transcript
    let t2 := if p2 then { t1 with enable_transcript := false } else t1
    let c2 := if p2 then
        ["Action " ++ rustQuote a.name
          ++ " has enable_transcript set to true while not waiting for the terminal to close. Disabling transcript..."]
      else []
    ({ a with attributes := ActionAttributes.Terminal t2 }, c1 ++ c2)
  | _, _ => (a, [])

/-- The action loop of `validate` (lines 607-640): terminal fixes plus
duplicate-name detection (duplicates are fatal). -/
def validateActions (actions : List Action) : List Action × List String × Bool :=
  let out := actions.foldl
    (fun (acc : List Action × List String × List String × Bool) a =>
      let (done, names, confs, fatal) := acc
      let (a1, cs) := validateAction a
      if names.contains a.name then
        (done ++ [a1], names,
         confs ++ cs ++ ["Duplicate action name: " ++ rustQuote a.name ++ " (fatal)"],
         true)
      else
        (done ++ [a1], names ++ [a.name], confs ++ cs, fatal))
    ([], [], [], false)
  (out.1, out.2.2.1, out.2.2.2)

/-- The body of the inner `for action in self.actions.iter_mut()` loop of
the workflow checks (lines 650-695), applied to one action for the
current workflow item; returns the possibly-updated action, item and the
conflicts emitted for this pair, in source order. -/
def validateWorkflowPair (item : WorkflowItem) (a : Action) :
    Action × WorkflowItem × List String :=
  if a.name = item.action then
    let p1 := item.parallel && !(parallel_action_types.contains a.action_type)
    let item1 := if p1 then { item with parallel := false } else item
    let c1 := if p1 then
        ["Action " ++ rustQuote a.name
          ++ " is set to run in parallel, but it is not allowed to run in parallel. Disabling parallel execution..."]
      else []
    let p2 := decide (0 < item1.timeout) && !(timeout_action_types.contains a.action_type)
    let item2 := if p2 then { item1 with timeout := 0 } else item1
    let c2 := if p2 then
        ["Action " ++ rustQuote a.name
          ++ " has a timeout set, but it is not allowed to have a timeout. Disabling timeout..."]
      else []
    let (a3, item3, c3) :=
      if item2.parallel then
        match a.attributes with
        | ActionAttributes.Binary ba =>
          if !ba.log_to_file then
            ({ a with attributes := ActionAttributes.Binary { ba with log_to_file := true } },
             item2,
             ["Action " ++ rustQuote a.name
               ++ " is set to run in parallel, but log_to_file is disabled. Setting log_to_file to true..."])
          else (a, item2, [])
        | ActionAttributes.Command ca =>
          if !ca.log_to_file then
            ({ a with attributes := ActionAttributes.Command { ca with log_to_file := true } },
             item2,
             ["Action " ++ rustQuote a.name
               ++ " is set to run in parallel and log_to_file is disabled. Setting log_to_file to true..."])
          else (a, item2, [])
        | ActionAttributes.Terminal ta =>
          if !ta.separate_window then
            (a, { item2 with parallel := false },
             ["Action " ++ rustQuote a.name
               ++ " is set to run in parallel but uses integrated terminal at the same time. Setting parallel to false..."])
          else (a, item2, [])
        | _ => (a, item2, [])
      else (a, item2, [])
    let p4 := item3.parallel && decide (item3.on_error ≠ OnError.Continue)
    let item4 := if p4 then { item3 with on_error := OnError.Continue } else item3
    let c4 := if p4 then
        ["Action " ++ rustQuote a.name
          ++ " is set to run in parallel and has a custom on_error. Setting on_error to continue..."]
      else []
    (a3, item4, c1 ++ c2 ++ c3 ++ c4)
  else (a, item, [])

/-- One iteration of the outer workflow loop of `validate`
(lines 643-696): the keypress check followed by the inner pass over all
actions. -/
def validateWorkflowItem (item : WorkflowItem) (actions : List Action) :
    WorkflowItem × List Action × List String :=
  let p0 := item.parallel && item.continue_after_keypress
  let item0 := if p0 then { item with continue_after_keypress := false } else item
  let c0 := if p0 then
      ["Action " ++ rustQuote item.action
        ++ " is set to run in parallel and wait for keypress at the same time. Disabling continue_after_keypress..."]
    else []
  let out := actions.foldl
    (fun (acc : List Action × WorkflowItem × List String) a =>
      let (done, it, confs) := acc
      let (a1, it1, cs) := validateWorkflowPair it a
      (done ++ [a1], it1, confs ++ cs))
    ([], item0, c0)
  (out.2.1, out.1, out.2.2)

/-- The workflow loop of `validate` (lines 642-696). -/
def validateWorkflow (workflow : List WorkflowItem) (actions : List Action) :
    List WorkflowItem × List Action × List String :=
  workflow.foldl
    (fun (acc : List WorkflowItem × List Action × List String) item =>
      let (items, acts, confs) := acc
      let (item1, acts1, cs) := validateWorkflowItem item acts
      (items ++ [item1], acts1, confs ++ cs))
    ([], actions, [])

/-- `WorkflowRunner::validate` (workflow.rs lines 546-725): returns the
rewritten workflow description, the conflict messages in emission order,
and whether a fatal conflict was found (in which case the source returns
an error after mutating `self`). -/
def validate (r : WorkflowRunner) : WorkflowRunner × List String × Bool :=
  let (cProps, fatal1) := validateProperties r
  let (lc, cLc) := validateLaunchConditions r.launch_conditions
  let (rep, cRep) := validateReporting r.reporting
  let (acts, cActs, fatal2) := validateActions r.actions
  let (wf, acts2, cWf) := validateWorkflow r.workflow acts
  ({ r with launch_conditions := lc, reporting := rep, actions := acts2,
            workflow := wf },
   cProps ++ cLc ++ cRep ++ cActs ++ cWf,
   fatal1 || fatal2)

/-! ## Crypto pipeline (src/crypto/src/lib.rs) -/

/-- The `EncryptionMeta` struct: sidecar metadata for an encrypted archive. -/
structure EncryptionMeta where
  version : String
  algorithm : Algorithm
  encrypted_key : List ℕ
  iv : List ℕ
  tag : List ℕ
deriving DecidableEq, Repr

/-- An RSA key pair as used through openssl: `encryptK` models
`Rsa::public_encrypt` with PKCS1 padding (producing a `size`-byte
ciphertext) and `decryptK` models `Rsa::private_decrypt` (producing the
recovered plaintext prefix that openssl writes into the output buffer). -/
structure RsaPair where
  size : ℕ
  encryptK : List ℕ → List ℕ
  decryptK : List ℕ → List ℕ

/-- One instantiated openssl `Crypter` behaviour for a fixed
(algorithm, key, iv): for the stream AEADs used here, `update` produces
`input XOR keystream` byte for byte, so the cipher is characterised by its
keystream `ks`; `tagOf` is the authentication tag over the ciphertext
stream; `encFinalBytes`/`decFinalBytes` are the trailing bytes produced by
`finalize` (always `[]` for AES-128-GCM and CHACHA20-POLY1305, which
buffer nothing, but kept general so that the final-write step of the
source can be examined). -/
structure AeadSpec where
  ks : ℕ → ℕ
  tagOf : List ℕ → List ℕ
  encFinalBytes : List ℕ → List ℕ
  decFinalBytes : List ℕ → List ℕ

/-- Assignment of a `Crypter` behaviour to every (algorithm, key, iv). -/
structure AeadFamily where
  spec : Algorithm → List ℕ → List ℕ → AeadSpec

/-- XOR a byte list against a keystream starting at stream offset `pos`:
the action of `Crypter::update` for a stream AEAD. -/
def xorKs (ks : ℕ → ℕ) : ℕ → List ℕ → List ℕ
  | _, [] => []
  | pos, b :: bs => (b ^^^ ks pos) :: xorKs ks (pos + 1) bs

/-- Overwrite `file` starting at byte offset `pos` with `data`
(`seek(Start(pos))` followed by `write_all(data)`); extends the file when
the write runs past its end. -/
def writeAt (file : List ℕ) (pos : ℕ) (data : List ℕ) : List ℕ :=
  file.take pos ++ data ++ file.drop (pos + data.length)

/-- Result of the in-place read/encrypt/write loop of
`encrypt_evidence`/`decrypt_evidence`: the file contents after the loop,
the final `position`, the final contents of the reused read `buffer`, and
the concatenations of all bytes fed to (`inBytes`) and produced by
(`outBytes`) `Crypter::update`. -/
structure LoopOut where
  file : List ℕ
  pos : ℕ
  buf : List ℕ
  inBytes : List ℕ
  outBytes : List ℕ
deriving DecidableEq, Repr

/-- The in-place loop of `encrypt_evidence`/`decrypt_evidence`
(`src/crypto/src/lib.rs` lines 268-281 and 350-363): read up to `bs`
bytes at the cursor (which sits at `position` after each write), feed
them to `update` (`u pos block`), seek back to `position`, write the
output, and advance `position` by the output length.  `fuel` bounds the
iteration count; `file.length + 1` always suffices. -/
def cryptLoop (u : ℕ → List ℕ → List ℕ) (bs : ℕ) :
    ℕ → ℕ → List ℕ → List ℕ → LoopOut
  | 0, p, f, buf => ⟨f, p, buf, [], []⟩
  | fuel + 1, p, f, buf =>
    let block := (f.drop p).take bs
    if block = [] then ⟨f, p, buf, [], []⟩
    else
      let ct := u p block
      let f2 := writeAt f p ct
      let buf2 := block ++ buf.drop block.length
      let rest := cryptLoop u bs fuel (p + ct.length) f2 buf2
      ⟨rest.file, rest.pos, rest.buf, block ++ rest.inBytes, ct ++ rest.outBytes⟩

/-- `encrypt_evidence` (src/crypto/src/lib.rs lines 200-299) on a file
given as its byte contents.  `key` and `iv` stand for the
`generate_random` outputs.  Returns the `(encrypted_key, iv, tag)` triple
together with the file contents after the in-place encryption.  The
final-write step reproduces the source exactly: when `finalize` produces
`count > 0` bytes the source writes `&buffer[..count]` — the plaintext
read buffer — not the finalized cipher output `&final_buffer[..count]`. -/
def encrypt_evidence (fam : AeadFamily) (rsa : RsaPair) (algorithm : Algorithm)
    (key iv file : List ℕ) :
    Except String ((List ℕ × List ℕ × List ℕ) × List ℕ) :=
  if algorithm = Algorithm.None then .ok (([], [], []), file)
  else
    let block_size := algorithm.block_size
    let encrypted_key := rsa.encryptK key
    let spec := fam.spec algorithm key iv
    let res := cryptLoop (fun p b => xorKs spec.ks p b) block_size
      (file.length + 1) 0 file (List.replicate block_size 0)
    let finalBytes := spec.encFinalBytes res.inBytes
    let count := finalBytes.length
    let file2 := if 0 < count then writeAt res.file res.pos (res.buf.take count)
      else res.file
    let tag := spec.tagOf (res.outBytes ++ finalBytes)
    .ok ((encrypted_key, iv, tag), file2)

/-- `decrypt_evidence` (src/crypto/src/lib.rs lines 301-387) on a file
given as its byte contents: unwrap the key with the private key and
truncate the `rsa.size`-byte output buffer to `key_size`, decrypt
block-wise in place, set the tag and finalize (`finalize` fails exactly
when the tag does not authenticate the processed ciphertext). -/
def decrypt_evidence (fam : AeadFamily) (rsa : RsaPair)
    (metadata : EncryptionMeta) (file : List ℕ) : Except String (List ℕ) :=
  if metadata.algorithm = Algorithm.None then .ok file
  else
    let block_size := metadata.algorithm.block_size
    let key_size := metadata.algorithm.key_size
    let key0 := rsa.decryptK metadata.encrypted_key
    let keyBuf := key0 ++ List.replicate (rsa.size - key0.length) 0
    let key := keyBuf.take key_size
    let spec := fam.spec metadata.algorithm key metadata.iv
    let res := cryptLoop (fun p b => xorKs spec.ks p b) block_size
      (file.length + 1) 0 file (List.replicate block_size 0)
    if spec.tagOf res.inBytes = metadata.tag then
      let finalBytes := spec.decFinalBytes res.inBytes
      let file2 := if 0 < finalBytes.length then
        writeAt res.file res.pos finalBytes else res.file
      .ok file2
    else .error "Failed to finalize decryption"

/-! ### Lemmas about the streaming loop -/

theorem xorKs_length (ks : ℕ → ℕ) :
    ∀ (p : ℕ) (l : List ℕ), (xorKs ks p l).length = l.length := by
  intro p l
  induction l generalizing p with
  | nil => rfl
  | cons b bs ih => simp [xorKs, ih]

theorem xorKs_append (ks : ℕ → ℕ) :
    ∀ (p : ℕ) (a b : List ℕ),
      xorKs ks p (a ++ b) = xorKs ks p a ++ xorKs ks (p + a.length) b := by
  intro p a b
  induction a generalizing p with
  | nil => simp [xorKs]
  | cons x xs ih =>
    simp only [List.cons_append, xorKs, List.length_cons, List.cons.injEq,
      true_and]
    have hgoal := ih (p + 1)
    have harith : p + 1 + xs.length = p + (xs.length + 1) := by omega
    rw [harith] at hgoal
    exact hgoal

theorem xorKs_xorKs (ks : ℕ → ℕ) :
    ∀ (p : ℕ) (l : List ℕ), xorKs ks p (xorKs ks p l) = l := by
  intro p l
  induction l generalizing p with
  | nil => rfl
  | cons b bs ih =>
    simp only [xorKs, ih, List.cons.injEq, and_true]
    rw [Nat.xor_assoc, Nat.xor_self, Nat.xor_zero]

/-- Characterisation of the in-place loop when `update` is a stream
cipher (`u = xorKs ks`): starting at position `p` of a file `f` with
`p ≤ f.length` and enough fuel, the loop rewrites `f.drop p` with its
XOR against the keystream, finishes with `position = f.length`, consumes
exactly `f.drop p` and produces exactly its encryption. -/
theorem cryptLoop_xorKs (ks : ℕ → ℕ) (bs : ℕ) (hbs : 0 < bs) :
    ∀ (fuel p : ℕ) (f buf : List ℕ), p ≤ f.length → f.length - p < fuel →
      (cryptLoop (fun q b => xorKs ks q b) bs fuel p f buf).file
          = f.take p ++ xorKs ks p (f.drop p) ∧
      (cryptLoop (fun q b => xorKs ks q b) bs fuel p f buf).pos = f.length ∧
      (cryptLoop (fun q b => xorKs ks q b) bs fuel p f buf).inBytes = f.drop p ∧
      (cryptLoop (fun q b => xorKs ks q b) bs fuel p f buf).outBytes
          = xorKs ks p (f.drop p) := by
  intro fuel
  induction fuel with
  | zero => intro p f buf _ h2; exact absurd h2 (Nat.not_lt_zero _)
  | succ fuel ih =>
    intro p f buf hp hfuel
    by_cases hblock : (f.drop p).take bs = []
    · have hdrop : f.drop p = [] := by
        cases hd : f.drop p with
        | nil => rfl
        | cons x xs =>
          exfalso
          rw [hd] at hblock
          cases bs with
          | zero => exact absurd rfl (Nat.ne_of_gt hbs)
          | succ n => simp [List.take] at hblock
      have hpe : p = f.length := by
        have := List.drop_eq_nil_iff.mp hdrop
        omega
      simp [cryptLoop, hblock, hdrop, xorKs, hpe, List.take_length]
    · -- the loop takes a real step
      set block := (f.drop p).take bs with hbdef
      have hblen : block.length = min bs (f.drop p).length := List.length_take _ _
      have hdlen : (f.drop p).length = f.length - p := List.length_drop _ _
      have hbpos : 0 < block.length := List.length_pos.mpr hblock
      have hble : p + block.length ≤ f.length := by
        rw [hblen, hdlen] at *
        omega
      set ct := xorKs ks p block with hctdef
      have hctlen : ct.length = block.length := xorKs_length ks p block
      set f2 := writeAt f p ct with hf2def
      have htakelen : (f.take p).length = p := by
        rw [List.length_take]
        omega
      have hf2 : f2 = f.take p ++ ct ++ f.drop (p + block.length) := by
        rw [hf2def, writeAt, hctlen]
      have hlen12 : (f.take p ++ ct).length = p + ct.length := by
        rw [List.length_append, htakelen]
      have hf2len : f2.length = f.length := by
        rw [hf2, List.length_append, List.length_append, htakelen, hctlen,
          List.length_drop]
        omega
      -- decompose f.drop p into block ++ remainder
      have hsplit : f.drop p = block ++ f.drop (p + block.length) := by
        have h0 : block ++ (f.drop p).drop bs = f.drop p :=
          List.take_append_drop bs (f.drop p)
        rw [← h0]
        congr 1
        rw [List.drop_drop]
        by_cases hc : bs ≤ (f.drop p).length
        · have hbl : block.length = bs := by rw [hblen]; omega
          rw [hbl, Nat.add_comm]
        · have e1 : f.drop (p + bs) = [] := by
            apply List.drop_eq_nil_of_le
            omega
          have e2 : f.drop (p + block.length) = [] := by
            apply List.drop_eq_nil_of_le
            rw [hblen]
            omega
          rw [e1, e2]
      -- rewrite the recursive call via the induction hypothesis
      have hp2 : p + ct.length ≤ f2.length := by rw [hf2len, hctlen]; exact hble
      have hfuel2 : f2.length - (p + ct.length) < fuel := by
        rw [hf2len, hctlen]
        omega
      have ihres := ih (p + ct.length) f2 (block ++ buf.drop block.length) hp2 hfuel2
      have hf2take : f2.take (p + ct.length) = f.take p ++ ct := by
        rw [hf2]
        exact List.take_left' hlen12
      have hf2drop : f2.drop (p + ct.length) = f.drop (p + block.length) := by
        rw [hf2]
        exact List.drop_left' hlen12
      -- unfold one loop step
      have hstep : cryptLoop (fun q b => xorKs ks q b) bs (fuel + 1) p f buf
          = ⟨(cryptLoop (fun q b => xorKs ks q b) bs fuel (p + ct.length) f2
                (block ++ buf.drop block.length)).file,
             (cryptLoop (fun q b => xorKs ks q b) bs fuel (p + ct.length) f2
                (block ++ buf.drop block.length)).pos,
             (cryptLoop (fun q b => xorKs ks q b) bs fuel (p + ct.length) f2
                (block ++ buf.drop block.length)).buf,
             block ++ (cryptLoop (fun q b => xorKs ks q b) bs fuel
                (p + ct.length) f2 (block ++ buf.drop block.length)).inBytes,
             ct ++ (cryptLoop (fun q b => xorKs ks q b) bs fuel
                (p + ct.length) f2 (block ++ buf.drop block.length)).outBytes⟩ := by
        conv_lhs => rw [cryptLoop]
        simp only [← hbdef, ← hctdef, ← hf2def, if_neg hblock]
      obtain ⟨ih1, ih2, ih3, ih4⟩ := ihres
      have hxsplit : xorKs ks p (f.drop p)
          = ct ++ xorKs ks (p + ct.length) (f.drop (p + block.length)) := by
        rw [hsplit, xorKs_append, hctlen, ← hctdef]
      refine ⟨?_, ?_, ?_, ?_⟩
      · rw [hstep]
        simp only [ih1, hf2take, hf2drop]
        rw [hxsplit, List.append_assoc]
      · rw [hstep]
        simp only [ih2, hf2len]
      · rw [hstep]
        simp only [ih3, hf2drop]
        rw [hsplit]
      · rw [hstep]
        simp only [ih4, hf2drop]
        rw [hxsplit]

/-! ### C1: encrypt/decrypt round trip -/

/-- C1: for every file F and every algorithm A in AES-128-GCM and
CHACHA20-POLY1305, encrypting F in place with `encrypt_evidence` under an
RSA public key and then decrypting it in place with `decrypt_evidence`
using the matching private key and the returned (encrypted_key, iv, tag)
metadata yields file contents byte-identical to F.  The RSA pair is
assumed matching (`hinv`), the generated key has the algorithm's key
size (`hkey`), and the AEAD is a stream cipher whose `finalize` emits no
trailing bytes, which is the behaviour of both supported algorithms. -/
theorem crypto_roundtrip (fam : AeadFamily) (rsa : RsaPair) (alg : Algorithm)
    (key iv file : List ℕ)
    (halg : alg = Algorithm.AES128GCM ∨ alg = Algorithm.CHACHA20POLY1305)
    (hkey : key.length = alg.key_size)
    (hinv : rsa.decryptK (rsa.encryptK key) = key)
    (hencf : ∀ d, (fam.spec alg key iv).encFinalBytes d = [])
    (hdecf : ∀ d, (fam.spec alg key iv).decFinalBytes d = []) :
    ∃ ek tg ctfile,
      encrypt_evidence fam rsa alg key iv file = .ok ((ek, iv, tg), ctfile) ∧
      decrypt_evidence fam rsa ⟨"1.0", alg, ek, iv, tg⟩ ctfile = .ok file := by
  have halgne : ¬ alg = Algorithm.None := by
    rcases halg with h | h <;> subst h <;> simp
  have hbs : 0 < alg.block_size := by
    rcases halg with h | h <;> subst h <;> decide
  set spec := fam.spec alg key iv with hspecdef
  set ct := xorKs spec.ks 0 file with hctdef
  have hctlen : ct.length = file.length := xorKs_length _ _ _
  -- the encryption call
  obtain ⟨e1, e2, e3, e4⟩ := cryptLoop_xorKs spec.ks alg.block_size hbs
    (file.length + 1) 0 file (List.replicate alg.block_size 0)
    (Nat.zero_le _) (by omega)
  have henc : encrypt_evidence fam rsa alg key iv file
      = .ok ((rsa.encryptK key, iv, spec.tagOf ct), ct) := by
    simp only [encrypt_evidence, halgne, if_false, ← hspecdef]
    rw [e1, e3, e4]
    simp only [List.drop_zero, List.take_zero, List.nil_append, hencf,
      List.length_nil, List.append_nil, ← hctdef]
    simp
  -- key recovery on the decryption side
  have hkeyrec : List.take alg.key_size
      (rsa.decryptK (rsa.encryptK key)
        ++ List.replicate (rsa.size - (rsa.decryptK (rsa.encryptK key)).length) 0)
      = key := by
    rw [hinv, ← hkey, List.take_left]
  -- the decryption call
  obtain ⟨d1, d2, d3, d4⟩ := cryptLoop_xorKs spec.ks alg.block_size hbs
    (ct.length + 1) 0 ct (List.replicate alg.block_size 0)
    (Nat.zero_le _) (by omega)
  have hdec : decrypt_evidence fam rsa ⟨"1.0", alg, rsa.encryptK key, iv, spec.tagOf ct⟩ ct
      = .ok file := by
    simp only [decrypt_evidence, halgne, if_false]
    rw [hkeyrec]
    simp only [← hspecdef]
    rw [d1, d3]
    simp only [List.drop_zero, List.take_zero, List.nil_append, hdecf,
      List.length_nil, ← hctdef]
    simp [hctdef, xorKs_xorKs]
  exact ⟨rsa.encryptK key, spec.tagOf ct, ct, henc, hdec⟩

/-- Concrete stream-AEAD behaviour used to witness the round trip:
constant keystream, a tag depending on the ciphertext length, and no
trailing `finalize` bytes. -/
def w1Fam : AeadFamily :=
  ⟨fun _ _ _ => ⟨fun _ => 170, fun c => [c.length % 256], fun _ => [], fun _ => []⟩⟩

/-- Identity RSA wrap used to witness the round trip. -/
def w1Rsa : RsaPair := ⟨256, id, id⟩

/-- Witness for C1 at a concrete file, key and algorithm. -/
theorem crypto_roundtrip_witness :
    ∃ ek tg ctfile,
      encrypt_evidence w1Fam w1Rsa Algorithm.AES128GCM (List.replicate 16 0) [] [5, 6]
          = .ok ((ek, [], tg), ctfile) ∧
      decrypt_evidence w1Fam w1Rsa ⟨"1.0", Algorithm.AES128GCM, ek, [], tg⟩ ctfile
          = .ok [5, 6] :=
  crypto_roundtrip w1Fam w1Rsa Algorithm.AES128GCM (List.replicate 16 0) [] [5, 6]
    (Or.inl rfl) (by decide) rfl (fun _ => rfl) (fun _ => rfl)

/-! ### C2: the AEAD final-write step -/

/-- A cipher behaviour whose encryption `finalize` emits one trailing
byte, 99, exposing the final-write step of `encrypt_evidence`. -/
def c2Fam : AeadFamily :=
  ⟨fun _ _ _ => ⟨fun _ => 0, fun _ => List.replicate 16 0, fun _ => [99], fun _ => []⟩⟩

/-- Identity RSA wrap for the C2 evaluation. -/
def c2Rsa : RsaPair := ⟨256, id, id⟩

/-- C2 (code bug, evaluated at the failing input): with a zero keystream
the plaintext [1, 2, 3] encrypts block-wise to itself, and `finalize`
produces the single trailing cipher byte 99; the file written by
`encrypt_evidence` ends in 1 — the first byte of the plaintext read
buffer — instead of the finalized cipher output 99 that the claim (and
the spec's stated contract) requires, because the source writes
`&buffer[..count]` rather than `&final_buffer[..count]`. -/
theorem encrypt_final_write_bug :
    (encrypt_evidence c2Fam c2Rsa Algorithm.AES128GCM (List.replicate 16 0)
        (List.replicate 12 0) [1, 2, 3]).toOption.map (fun r => r.2)
      = some [1, 2, 3, 1]
    ∧ (c2Fam.spec Algorithm.AES128GCM (List.replicate 16 0)
        (List.replicate 12 0)).encFinalBytes [1, 2, 3] = [99]
    ∧ ([1, 2, 3, 1] : List ℕ) ≠ [1, 2, 3] ++ [99] := by
  refine ⟨by decide, rfl, by decide⟩

/-! ### C3: validation on the conflict-free archive+compression workflow -/

/-- A workflow description with no conflict per the specification:
zip archive enabled, compression enabled, encryption disabled, required
properties present, no duplicate names, no parallel or timeout use. -/
def c3Runner : WorkflowRunner :=
  { properties := [("title", "t"), ("version", "1")]
    launch_conditions :=
      { os := ["linux"], enabled := none, arch := none, is_elevated := none,
        custom_command := none }
    actions := [⟨"a", ActionType.Command,
      ActionAttributes.Command ⟨"echo", ["hi"], "", true⟩⟩]
    workflow := [⟨"a", OnError.Continue, false, 0, false⟩]
    reporting :=
      { zip_archive :=
          { enabled := true
            encryption := { enabled := false, public_key := "", algorithm := Algorithm.None }
            compression := { enabled := true, size_limit := 0 } }
        metadata := { mac_times := false, checksums := false, paths := false } } }

/-- C3 (code bug, evaluated at the failing input): on a workflow with the
zip archive enabled, compression enabled and encryption disabled — which
contains no conflict — `validate` nevertheless disables compression and
reports a conflict, because the third reporting check tests
`encryption.enabled` where its own comment and message say it should test
`zip_archive.enabled`.  The claim's no-op/no-conflict property therefore
fails on this valid input. -/
theorem validate_disables_valid_compression :
    (validate c3Runner).1.reporting.zip_archive.compression.enabled = false
    ∧ (validate c3Runner).2.1
        = ["report can only be compressed if zip_archive is enable: disabling compression"]
    ∧ c3Runner.reporting.zip_archive.compression.enabled = true
    ∧ (validate c3Runner).2.2 = false :=
  ⟨rfl, rfl, rfl, rfl⟩

/-! ## Action runners (src/actions/src/lib.rs, binary.rs, command.rs) -/

/-- The `ActionResult` struct; `execution_time` is modelled as a natural
number of time units. -/
structure ActionResult where
  success : Bool
  exit_code : Option Int
  execution_time : ℕ
  error_message : Option String
  parallel : Bool
  finished : Bool
deriving DecidableEq, Repr

/-- The `error_result!` macro (with a start time, so `execution_time` is
the elapsed time). -/
def error_result (msg : String) (elapsed : ℕ) : ActionResult :=
  { success := false, exit_code := some (-1), execution_time := elapsed,
    error_message := some msg, parallel := false, finished := true }

/-- The `get_stream_error!` macro: the captured stderr text with line
endings normalised and truncated to 200 characters, or the given default
when no stderr was captured. -/
def get_stream_error (stderrTask : Option String) (dflt : String) : Option String :=
  match stderrTask with
  | some err => some ((err.replace "\r\n" "\n").take 200)
  | none => some dflt

/-- Outcome of awaiting `child.wait()`: the child exited (with openssl
`ExitStatus::success`/`code`) or the wait itself failed. -/
inductive ChildWait where
  | exited (success : Bool) (code : Option Int)
  | ioErr (msg : String)
deriving DecidableEq, Repr

/-- Result of the wait/timeout phase of a runner, recording whether the
runner killed the child. -/
structure WaitPhaseOut where
  result : ActionResult
  killedChild : Bool
deriving DecidableEq, Repr

/-- The wait/timeout/result phase of `Binary::run` (binary.rs lines
91-121): with a positive timeout the wait future is raced against the
timer (`completesInTime` says whether it finished in time); on expiry the
child is killed and the run returns `error_result!("Process timed out")`;
with `timeout = 0` the child is awaited without any time limit. -/
def binaryWaitPhase (timeout : Int) (parallel : Bool) (completesInTime : Bool)
    (w : ChildWait) (stderrTask : Option String) (elapsed : ℕ) : WaitPhaseOut :=
  if 0 < timeout ∧ completesInTime = false then
    ⟨error_result "Process timed out" elapsed, true⟩
  else
    match w with
    | .ioErr e => ⟨error_result e elapsed, false⟩
    | .exited success code =>
      ⟨{ success := success, exit_code := code, execution_time := elapsed,
         error_message := if success then none
           else get_stream_error stderrTask "Process failed",
         parallel := parallel, finished := true }, false⟩

/-- The wait/timeout/result phase of `ShellCommand::run` (command.rs
lines 89-119); identical to the binary runner except for the
"Command timed out" and "Command failed" strings. -/
def commandWaitPhase (timeout : Int) (parallel : Bool) (completesInTime : Bool)
    (w : ChildWait) (stderrTask : Option String) (elapsed : ℕ) : WaitPhaseOut :=
  if 0 < timeout ∧ completesInTime = false then
    ⟨error_result "Command timed out" elapsed, true⟩
  else
    match w with
    | .ioErr e => ⟨error_result e elapsed, false⟩
    | .exited success code =>
      ⟨{ success := success, exit_code := code, execution_time := elapsed,
         error_message := if success then none
           else get_stream_error stderrTask "Command failed",
         parallel := parallel, finished := true }, false⟩

/-! ### C4: timeout behaviour of the binary and command runners -/

/-- C4 (counterexample to the claim as stated): a command action with a
positive timeout whose child does not finish in time reports
"Command timed out", not "Process timed out" as the claim asserts for
both runners. -/
theorem command_timeout_message_counterexample :
    (commandWaitPhase 1 false false (.exited true (some 0)) none 1).result.error_message
        = some "Command timed out"
    ∧ (commandWaitPhase 1 false false (.exited true (some 0)) none 1).result.error_message
        ≠ some "Process timed out" := by
  refine ⟨rfl, by decide⟩

/-- C4 (amended): with a positive timeout and a child that does not exit
in time, each runner kills the child and returns success = false,
exit_code = -1 and error message "Process timed out" (binary runner)
respectively "Command timed out" (command runner); with a timeout of 0 no
time limit applies — the outcome is the same whether or not the child
would have finished within any given time, and the child is never killed
by the runner. -/
theorem runner_timeout_behavior (t : Int) (ht : 0 < t) (parallel : Bool)
    (w : ChildWait) (stderrTask : Option String) (elapsed : ℕ) (c : Bool) :
    binaryWaitPhase t parallel false w stderrTask elapsed
        = ⟨error_result "Process timed out" elapsed, true⟩
    ∧ commandWaitPhase t parallel false w stderrTask elapsed
        = ⟨error_result "Command timed out" elapsed, true⟩
    ∧ binaryWaitPhase 0 parallel c w stderrTask elapsed
        = binaryWaitPhase 0 parallel true w stderrTask elapsed
    ∧ commandWaitPhase 0 parallel c w stderrTask elapsed
        = commandWaitPhase 0 parallel true w stderrTask elapsed
    ∧ (binaryWaitPhase 0 parallel c w stderrTask elapsed).killedChild = false
    ∧ (commandWaitPhase 0 parallel c w stderrTask elapsed).killedChild = false := by
  have hz : ¬ ((0 : Int) < 0 ∧ c = false) := by simp
  refine ⟨?_, ?_, ?_, ?_, ?_, ?_⟩
  · simp [binaryWaitPhase, ht]
  · simp [commandWaitPhase, ht]
  · simp [binaryWaitPhase]
  · simp [commandWaitPhase]
  · simp only [binaryWaitPhase, if_neg hz]
    cases w <;> simp
  · simp only [commandWaitPhase, if_neg hz]
    cases w <;> simp

/-- Witness for C4 (amended) at timeout 1. -/
theorem runner_timeout_behavior_witness :
    binaryWaitPhase 1 false false (.exited true (some 0)) none 3
        = ⟨error_result "Process timed out" 3, true⟩
    ∧ commandWaitPhase 1 false false (.exited true (some 0)) none 3
        = ⟨error_result "Command timed out" 3, true⟩
    ∧ binaryWaitPhase 0 false false (.exited true (some 0)) none 3
        = binaryWaitPhase 0 false true (.exited true (some 0)) none 3
    ∧ commandWaitPhase 0 false false (.exited true (some 0)) none 3
        = commandWaitPhase 0 false true (.exited true (some 0)) none 3
    ∧ (binaryWaitPhase 0 false false (.exited true (some 0)) none 3).killedChild = false
    ∧ (commandWaitPhase 0 false false (.exited true (some 0)) none 3).killedChild = false :=
  runner_timeout_behavior 1 (by decide) false (.exited true (some 0)) none 3 false

/-! ## Workflow engine (src/workflow/src/runner.rs) -/

/-- `Iterator::position`: index of the first element satisfying `p`. -/
def position {α : Type} (p : α → Bool) : List α → Option ℕ
  | [] => none
  | a :: l => if p a then some 0 else (position p l).map (· + 1)

/-- `Workflow::handle_result` (runner.rs lines 257-327) restricted to its
effect on `current_step`: an unfinished (spawned-parallel) result or a
parallel completion advances; a success advances; a failure dispatches on
`on_error` (`goto` searches the workflow for the first step whose action
name matches, failing fatally when absent; `abort` fails fatally;
`continue` advances). -/
def handle_result (workflow : List WorkflowItem) (current_step : ℕ)
    (result : ActionResult) (item : WorkflowItem) : Except String ℕ :=
  if result.finished = false then .ok (current_step + 1)
  else if result.parallel then .ok (current_step + 1)
  else
    match result.success with
    | true => .ok (current_step + 1)
    | false =>
      match item.on_error with
      | OnError.Goto g =>
        match position (fun step => step.action = g) workflow with
        | some index => .ok index
        | none => .error "Step not found"
      | OnError.Abort => .error "Aborting workflow"
      | OnError.Continue => .ok (current_step + 1)

/-- `position` finds the first matching index: the element there
satisfies `p` and every earlier element does not. -/
theorem position_first {α : Type} (p : α → Bool) :
    ∀ (l : List α) (i : ℕ), position p l = some i →
      ∃ x, l.get? i = some x ∧ p x = true
        ∧ ∀ j y, j < i → l.get? j = some y → p y = false := by
  intro l
  induction l with
  | nil => intro i h; simp [position] at h
  | cons a l ih =>
    intro i h
    by_cases hpa : p a
    · simp [position, hpa] at h
      subst h
      exact ⟨a, rfl, hpa, fun j y hj _ => absurd hj (Nat.not_lt_zero _)⟩
    · simp [position, hpa] at h
      obtain ⟨i0, hi0, hieq⟩ := h
      obtain ⟨x, hget, hpx, hfirst⟩ := ih i0 hi0
      refine ⟨x, ?_, hpx, ?_⟩
      · rw [← hieq]
        simpa using hget
      · intro j y hj hget2
        cases j with
        | zero =>
          simp at hget2
          rw [← hget2]
          simpa using hpa
        | succ j0 =>
          have hj0 : j0 < i0 := by omega
          apply hfirst j0 y hj0
          simpa using hget2

/-! ### C8: on_error dispatch -/

/-- C8: for a finished, non-parallel, failed step result, `handle_result`
dispatches on `on_error`: `continue` advances `current_step` by one;
`abort` returns a fatal error (which `run` propagates); `goto name` sets
`current_step` to the index of the first workflow step whose action
equals `name` and returns a fatal error when no step matches. -/
theorem handle_result_on_error (wf : List WorkflowItem) (cur : ℕ)
    (result : ActionResult) (item : WorkflowItem)
    (hfin : result.finished = true) (hpar : result.parallel = false)
    (hfail : result.success = false) :
    (item.on_error = OnError.Continue →
      handle_result wf cur result item = .ok (cur + 1))
    ∧ (item.on_error = OnError.Abort →
      handle_result wf cur result item = .error "Aborting workflow")
    ∧ (∀ g i, item.on_error = OnError.Goto g →
        position (fun step => step.action = g) wf = some i →
          handle_result wf cur result item = .ok i
          ∧ ∃ step, wf.get? i = some step ∧ step.action = g
            ∧ ∀ j earlier, j < i → wf.get? j = some earlier → earlier.action ≠ g)
    ∧ (∀ g, item.on_error = OnError.Goto g →
        position (fun step => step.action = g) wf = none →
          handle_result wf cur result item = .error "Step not found") := by
  refine ⟨?_, ?_, ?_, ?_⟩
  · intro h
    simp [handle_result, hfin, hpar, hfail, h]
  · intro h
    simp [handle_result, hfin, hpar, hfail, h]
  · intro g i h hpos
    constructor
    · simp [handle_result, hfin, hpar, hfail, h, hpos]
    · obtain ⟨x, hget, hpx, hfirst⟩ := position_first _ wf i hpos
      refine ⟨x, hget, by simpa using hpx, ?_⟩
      intro j earlier hj hget2
      have := hfirst j earlier hj hget2
      simpa using this
  · intro g h hpos
    simp [handle_result, hfin, hpar, hfail, h, hpos]

/-- Witness for C8 on a two-step workflow whose second step fails. -/
theorem handle_result_on_error_witness :
    let wf : List WorkflowItem :=
      [⟨"a", OnError.Continue, false, 0, false⟩,
       ⟨"b", OnError.Goto "a", false, 0, false⟩]
    let res : ActionResult :=
      { success := false, exit_code := some 1, execution_time := 0,
        error_message := none, parallel := false, finished := true }
    let item : WorkflowItem := ⟨"b", OnError.Goto "a", false, 0, false⟩
    (item.on_error = OnError.Continue → handle_result wf 1 res item = .ok 2)
    ∧ (item.on_error = OnError.Abort →
        handle_result wf 1 res item = .error "Aborting workflow")
    ∧ (∀ g i, item.on_error = OnError.Goto g →
        position (fun step => step.action = g) wf = some i →
          handle_result wf 1 res item = .ok i
          ∧ ∃ step, wf.get? i = some step ∧ step.action = g
            ∧ ∀ j earlier, j < i → wf.get? j = some earlier → earlier.action ≠ g)
    ∧ (∀ g, item.on_error = OnError.Goto g →
        position (fun step => step.action = g) wf = none →
          handle_result wf 1 res item = .error "Step not found") :=
  handle_result_on_error _ 1 _ _ rfl rfl rfl

/-! ## Evidence sink (src/storage/src/lib.rs) -/

/-- The `FileMeta` struct: one metadata CSV row. -/
structure FileMeta where
  original_path : String
  modified_time : String
  accessed_time : String
  created_time : String
  sha1_checksum : String
  path_checksum : String
  size : ℕ
  comment : Option String
deriving DecidableEq, Repr

/-- The two compression methods chosen by `add_file_to_zip`. -/
inductive CompressionMethod where
  | ZSTD
  | Stored
deriving DecidableEq, Repr

/-- An archive-local entry name, by construction site: `lootName b`
renders as `loot_files/<b>`, `storedName c` as `stored_files/<c>`, and
`sweptName rel` is the report-relative path used by the `finish` sweep.
Keeping the constructor separates the three `format!` sites of the
source. -/
inductive ZipName where
  | lootName (base : String)
  | storedName (checksum : String)
  | sweptName (rel : String)
deriving DecidableEq, Repr

/-- One entry written to the ZIP archive. -/
structure ZipEntry where
  name : ZipName
  method : CompressionMethod
  largeFile : Bool
  data : List ℕ
deriving DecidableEq, Repr

/-- A file on disk as the sink reads it: contents plus the
already-RFC3339-rendered MAC times gathered via `fs::metadata`
(`created_time` is `none` when the platform has no creation time). -/
structure FsFile where
  content : List ℕ
  mtime : String
  atime : String
  ctime : Option String
deriving DecidableEq, Repr

/-- The SHA-1 helpers of the crypto crate, kept abstract:
`sha1_path` models `file_name_checksum` (SHA-1 of the absolute path,
40-char left-padded hex) and `sha1_data` models
`get_file_sha1`/`copy_file_with_sha1` over file contents. -/
structure HashFns where
  sha1_path : String → String
  sha1_data : List ℕ → String

/-- Character-list prefix test (replaces `str::starts_with` over the
UTF-8 character sequence). -/
def listIsPrefixOf : List Char → List Char → Bool
  | [], _ => true
  | _ :: _, [] => false
  | x :: xs, y :: ys => x = y && listIsPrefixOf xs ys

/-- `Path::starts_with` on the string form of canonical absolute paths:
equal, or followed by a path separator. -/
def pathStartsWith (base p : String) : Bool :=
  p = base || listIsPrefixOf (base ++ "/").data p.data

/-- Last path component of a character sequence (running accumulator
reset at every separator). -/
def basenameChars : List Char → List Char → List Char
  | [], acc => acc
  | c :: cs, acc =>
    if c = '/' then basenameChars cs [] else basenameChars cs (acc ++ [c])

/-- `Path::file_name` of a canonical absolute path: its last component. -/
def basename (p : String) : String := String.mk (basenameChars p.data [])

/-- The mutable state of a `FileProcessor`: whether a public key has been
set, whether the ZIP writer is initialised, the ZIP entries written, the
CSV rows written, the keys of the `added_files` map, the destinations of
plain filesystem copies (archive disabled), and the source files removed
after being moved into the archive. -/
structure SinkState where
  public_key_set : Bool
  zip_initialized : Bool
  zipEntries : List ZipEntry
  csvRows : List FileMeta
  added_files : List String
  copies : List (String × ZipName)
  removed : List String
deriving Repr

/-- The immutable surroundings of a `FileProcessor`: the reporting policy
and the report directory layout. -/
structure SinkConfig where
  report_settings : Reporting
  report_dir : String
  loot_dir : String
  hash : HashFns

/-- `FileProcessor::add_file_to_zip` (storage lib.rs lines 269-368):
guard on writer/archive state, choose the compression method and the
large-file flag from the file size and the compression policy, write the
entry (hashing alongside when checksums are enabled), and delete the
source file when it lies inside the report directory.  Returns the new
sink state and the (possibly empty) content checksum. -/
def add_file_to_zip (cfg : SinkConfig) (st : SinkState) (abs_file_path : String)
    (file : FsFile) (zip_file_name : ZipName) :
    Except String (SinkState × String) :=
  if st.zip_initialized = false then .error "Zip archive is not initialized"
  else if cfg.report_settings.zip_archive.enabled = false then
    .error "Cannot add file to zip archive: archiving is disabled"
  else
    let file_size := file.content.length
    let settings := cfg.report_settings.zip_archive.compression
    let method := if settings.enabled
        && (decide (file_size ≤ settings.size_limit) || decide (settings.size_limit = 0))
      then CompressionMethod.ZSTD else CompressionMethod.Stored
    let large_file := decide (4294967295 < file_size)
    let entry : ZipEntry := ⟨zip_file_name, method, large_file, file.content⟩
    let removed := if pathStartsWith cfg.report_dir abs_file_path
      then st.removed ++ [abs_file_path] else st.removed
    let checksum := if cfg.report_settings.metadata.checksums
      then cfg.hash.sha1_data file.content else ""
    .ok ({ st with zipEntries := st.zipEntries ++ [entry], removed := removed },
         checksum)

/-- `FileProcessor::store` (storage lib.rs lines 115-266): existence
check, canonicalisation (the caller passes the canonical absolute path),
path checksum, MAC times for files outside the loot directory, archive
name selection with the added-files dedup check for non-loot files, one
of three write modes, added-files bookkeeping and one flushed CSV row. -/
def store (cfg : SinkConfig) (st : SinkState) (file_path : String)
    (file? : Option FsFile) (comment : Option String) :
    Except String SinkState :=
  match file? with
  | none => .error "File not found"
  | some file =>
    let abs_file_path := file_path
    let path_checksum := cfg.hash.sha1_path abs_file_path
    let in_loot_dir := pathStartsWith cfg.loot_dir abs_file_path
    let meta0 : FileMeta :=
      ⟨abs_file_path, "", "", "", "", path_checksum, 0, comment⟩
    let ctimeStr := match file.ctime with | some c => c | none => "None"
    let meta1 := if cfg.report_settings.metadata.mac_times && !in_loot_dir then
        { meta0 with
            modified_time := file.mtime
            accessed_time := file.atime
            created_time := ctimeStr
            size := file.content.length }
      else meta0
    let nameRes : Except String ZipName :=
      if in_loot_dir then .ok (ZipName.lootName (basename abs_file_path))
      else if st.added_files.contains path_checksum then
        .error "File already added to the archive"
      else .ok (ZipName.storedName path_checksum)
    match nameRes with
    | .error e => .error e
    | .ok archive_filename =>
      let writeRes : Except String (SinkState × String) :=
        if cfg.report_settings.zip_archive.enabled then
          match add_file_to_zip cfg st abs_file_path file archive_filename with
          | .ok r => .ok r
          | .error e => .error ("Failed to add file to zip archive: " ++ e)
        else if cfg.report_settings.metadata.checksums then
          .ok ({ st with copies := st.copies ++ [(abs_file_path, archive_filename)] },
               cfg.hash.sha1_data file.content)
        else
          .ok ({ st with copies := st.copies ++ [(abs_file_path, archive_filename)] },
               "")
      match writeRes with
      | .error e => .error e
      | .ok (st1, checksum) =>
        let meta2 := { meta1 with sha1_checksum := checksum }
        let st2 := if in_loot_dir = false then
            { st1 with added_files := st1.added_files ++ [path_checksum] }
          else st1
        .ok { st2 with csvRows := st2.csvRows ++ [meta2] }

/-- The `Default` impl of `EncryptionMeta`. -/
def EncryptionMeta.default : EncryptionMeta := ⟨"1.0", Algorithm.None, [], [], []⟩

/-- Result of `FileProcessor::finish`: the final sink state, the sidecar
`encryption.json` contents when one is written, and whether
`encrypt_evidence` was invoked on `report.zip`. -/
structure FinishOut where
  state : SinkState
  sidecar : Option EncryptionMeta
  encrypt_invoked : Bool
deriving Repr

/-- `FileProcessor::finish` (storage lib.rs lines 381-464): return
immediately when archiving is disabled; sweep the loot directory, the
action log directory and the metadata CSV into the archive at their
report-relative names (per-file errors are logged, not propagated); close
the writer; when encryption is disabled write the default sidecar;
otherwise encrypt `report.zip` when a public key is set (its result is
the `encryptResult` parameter) and fall back to an empty triple without
invoking the crypto pipeline when none is set, then write the sidecar
with the configured algorithm. -/
def finish (cfg : SinkConfig) (st : SinkState)
    (sweep : List (String × FsFile))
    (encryptResult : Except String (List ℕ × List ℕ × List ℕ)) :
    Except String FinishOut :=
  if cfg.report_settings.zip_archive.enabled = false then
    .ok ⟨st, none, false⟩
  else
    let st1 := sweep.foldl
      (fun acc fr =>
        match add_file_to_zip cfg acc (cfg.report_dir ++ "/" ++ fr.1) fr.2
            (ZipName.sweptName fr.1) with
        | .ok r => r.1
        | .error _ => acc)
      st
    let st2 := { st1 with zip_initialized := false }
    if cfg.report_settings.zip_archive.encryption.enabled = false then
      .ok ⟨st2, some EncryptionMeta.default, false⟩
    else
      let algorithm := cfg.report_settings.zip_archive.encryption.algorithm
      if st2.public_key_set then
        match encryptResult with
        | .error e => .error e
        | .ok (ek, iv0, tg) => .ok ⟨st2, some ⟨"1.0", algorithm, ek, iv0, tg⟩, true⟩
      else
        .ok ⟨st2, some ⟨"1.0", algorithm, [], [], []⟩, false⟩

/-! ### Sink invariants and theorems -/

/-- Whether an archive-local name is a `stored_files/` entry name. -/
def isStoredEntry : ZipName → Bool
  | ZipName.storedName _ => true
  | _ => false

/-- The `stored_files/` entry names present in the ZIP. -/
def storedNames (st : SinkState) : List ZipName :=
  (st.zipEntries.map ZipEntry.name).filter isStoredEntry

/-- Sink invariant: every `stored_files/<c>` entry of the ZIP has its
checksum `c` registered in the added-files set, and the `stored_files/`
entry names are pairwise distinct (each path checksum appears at most
once in the archive). -/
def SinkInv (st : SinkState) : Prop :=
  (∀ c, ZipName.storedName c ∈ st.zipEntries.map ZipEntry.name → c ∈ st.added_files)
  ∧ (storedNames st).Nodup

/-- Adding one ZIP entry whose name is not a `stored_files/` name leaves
the invariant intact. -/
theorem sinkInv_append_nonstored (st : SinkState) (e : ZipEntry)
    (hinv : SinkInv st) (hns : isStoredEntry e.name = false)
    (added2 : List String) (hsub : ∀ c, c ∈ st.added_files → c ∈ added2) :
    (∀ c, ZipName.storedName c ∈ (st.zipEntries ++ [e]).map ZipEntry.name →
        c ∈ added2)
    ∧ (((st.zipEntries ++ [e]).map ZipEntry.name).filter isStoredEntry).Nodup := by
  obtain ⟨h1, h2⟩ := hinv
  constructor
  · intro c hc
    rw [List.map_append, List.mem_append] at hc
    rcases hc with hc | hc
    · exact hsub c (h1 c hc)
    · simp at hc
      rw [← hc] at hns
      simp [isStoredEntry] at hns
  · rw [List.map_append, List.filter_append]
    simp [hns]
    exact h2

/-! ### C5: deduplication of non-loot files -/

/-- Shape of a successful `store`: it always appends exactly one CSV row,
leaves the added-files set unchanged for loot files and extends it with
the path checksum otherwise, and either appends exactly one ZIP entry
(the loot or stored name) or, with the archive disabled, performs a copy
and leaves the ZIP untouched. -/
theorem store_ok_shape (cfg : SinkConfig) (st0 st1 : SinkState) (q : String)
    (f : FsFile) (c : Option String)
    (hok : store cfg st0 q (some f) c = .ok st1) :
    st1.csvRows.length = st0.csvRows.length + 1
    ∧ st1.public_key_set = st0.public_key_set
    ∧ st1.zip_initialized = st0.zip_initialized
    ∧ ((pathStartsWith cfg.loot_dir q = true
          ∧ st1.added_files = st0.added_files
          ∧ ((cfg.report_settings.zip_archive.enabled = false
              ∧ st1.zipEntries = st0.zipEntries)
             ∨ ∃ e, st1.zipEntries = st0.zipEntries ++ [e]
                 ∧ e.name = ZipName.lootName (basename q)))
       ∨ (pathStartsWith cfg.loot_dir q = false
          ∧ cfg.hash.sha1_path q ∉ st0.added_files
          ∧ st1.added_files = st0.added_files ++ [cfg.hash.sha1_path q]
          ∧ ((cfg.report_settings.zip_archive.enabled = false
              ∧ st1.zipEntries = st0.zipEntries)
             ∨ ∃ e, st1.zipEntries = st0.zipEntries ++ [e]
                 ∧ e.name = ZipName.storedName (cfg.hash.sha1_path q)))) := by
  by_cases hl : pathStartsWith cfg.loot_dir q
  · by_cases ha : cfg.report_settings.zip_archive.enabled
    · by_cases hz : st0.zip_initialized
      · simp [store, add_file_to_zip, hl, ha, hz] at hok
        rw [← hok]
        refine ⟨by simp, by simp, by simp [hz], Or.inl ⟨hl, by simp, Or.inr ⟨_, rfl, rfl⟩⟩⟩
      · simp [store, add_file_to_zip, hl, ha, hz] at hok
    · by_cases hcs : cfg.report_settings.metadata.checksums
      · simp [store, add_file_to_zip, hl, ha, hcs] at hok
        rw [← hok]
        refine ⟨by simp, by simp, by simp, Or.inl ⟨hl, by simp, Or.inl ⟨by simpa using ha, rfl⟩⟩⟩
      · simp [store, add_file_to_zip, hl, ha, hcs] at hok
        rw [← hok]
        refine ⟨by simp, by simp, by simp, Or.inl ⟨hl, by simp, Or.inl ⟨by simpa using ha, rfl⟩⟩⟩
  · by_cases hdup : cfg.hash.sha1_path q ∈ st0.added_files
    · simp [store, hl, hdup] at hok
    · by_cases ha : cfg.report_settings.zip_archive.enabled
      · by_cases hz : st0.zip_initialized
        · simp [store, add_file_to_zip, hl, hdup, ha, hz] at hok
          rw [← hok]
          refine ⟨by simp, by simp, by simp [hz],
            Or.inr ⟨by simpa using hl, hdup, by simp, Or.inr ⟨_, rfl, rfl⟩⟩⟩
        · simp [store, add_file_to_zip, hl, hdup, ha, hz] at hok
      · by_cases hcs : cfg.report_settings.metadata.checksums
        · simp [store, add_file_to_zip, hl, hdup, ha, hcs] at hok
          rw [← hok]
          refine ⟨by simp, by simp, by simp,
            Or.inr ⟨by simpa using hl, hdup, by simp, Or.inl ⟨by simpa using ha, rfl⟩⟩⟩
        · simp [store, add_file_to_zip, hl, hdup, ha, hcs] at hok
          rw [← hok]
          refine ⟨by simp, by simp, by simp,
            Or.inr ⟨by simpa using hl, hdup, by simp, Or.inl ⟨by simpa using ha, rfl⟩⟩⟩

/-- C5: storing a file outside the loot directory whose path checksum is
already in the added-files set fails with "File already added" (the
source message is "File already added to the archive") before any write:
the call returns an error instead of a new state, so no ZIP entry, no
copy and no CSV row is produced.  Moreover every successful `store` call
appends exactly one CSV row and preserves the invariant that the ZIP
holds each `stored_files/<path_checksum>` entry at most once. -/
theorem store_dedup_and_csv (cfg : SinkConfig) (st : SinkState) (p : String)
    (file : FsFile) (comment : Option String)
    (hnl : pathStartsWith cfg.loot_dir p = false)
    (hmem : cfg.hash.sha1_path p ∈ st.added_files) :
    store cfg st p (some file) comment = .error "File already added to the archive"
    ∧ (∀ st0 st1 q f c, SinkInv st0 → store cfg st0 q (some f) c = .ok st1 →
        SinkInv st1 ∧ st1.csvRows.length = st0.csvRows.length + 1) := by
  constructor
  · simp [store, hnl, hmem]
  · intro st0 st1 q f c hinv hok
    obtain ⟨hcsv, _, _, hcases⟩ := store_ok_shape cfg st0 st1 q f c hok
    refine ⟨?_, hcsv⟩
    rcases hcases with ⟨_, hadd, ⟨_, hzip⟩ | ⟨e, hzip, hname⟩⟩
      | ⟨_, hnotmem, hadd, ⟨_, hzip⟩ | ⟨e, hzip, hname⟩⟩
    · refine ⟨fun c0 hc0 => by rw [hadd]; exact hinv.1 c0 (by rwa [hzip] at hc0), ?_⟩
      show (storedNames st1).Nodup
      unfold storedNames
      rw [hzip]
      exact hinv.2
    · have hns := sinkInv_append_nonstored st0 e hinv (by rw [hname]; rfl)
        st0.added_files (fun c hc => hc)
      refine ⟨?_, ?_⟩
      · intro c0 hc0
        rw [hadd]
        exact hns.1 c0 (by rwa [hzip] at hc0)
      · show (storedNames st1).Nodup
        unfold storedNames
        rw [hzip]
        exact hns.2
    · refine ⟨?_, ?_⟩
      · intro c0 hc0
        rw [hadd]
        exact List.mem_append_left _ (hinv.1 c0 (by rwa [hzip] at hc0))
      · show (storedNames st1).Nodup
        unfold storedNames
        rw [hzip]
        exact hinv.2
    · constructor
      · intro c0 hc0
        rw [hadd]
        rw [hzip, List.map_append, List.mem_append] at hc0
        rcases hc0 with hc0 | hc0
        · exact List.mem_append_left _ (hinv.1 c0 hc0)
        · simp [hname] at hc0
          rw [hc0]
          exact List.mem_append_right _ (List.mem_singleton.mpr rfl)
      · show (storedNames st1).Nodup
        unfold storedNames
        rw [hzip, List.map_append, List.filter_append]
        have hse : isStoredEntry e.name = true := by rw [hname]; rfl
        simp only [List.map_cons, List.map_nil, List.filter_cons, hse, if_true,
          List.filter_nil]
        rw [List.nodup_append]
        refine ⟨hinv.2, by simp, ?_⟩
        intro x hx hx2
        simp at hx2
        rw [hx2, hname] at hx
        have hmem2 : ZipName.storedName (cfg.hash.sha1_path q)
            ∈ st0.zipEntries.map ZipEntry.name := (List.mem_filter.mp hx).1
        exact hnotmem (hinv.1 _ hmem2)

/-- Concrete hash functions for witnesses: the path checksum of a path is
the path itself. -/
def wHash : HashFns := ⟨fun s => s, fun _ => "cafe"⟩

/-- Concrete sink configuration for witnesses: archiving on, encryption
and compression off, no metadata. -/
def wCfg : SinkConfig :=
  { report_settings :=
      { zip_archive :=
          { enabled := true
            encryption := ⟨false, "", Algorithm.None⟩
            compression := ⟨false, 0⟩ }
        metadata := ⟨false, false, false⟩ }
    report_dir := "/r"
    loot_dir := "/r/loot_files"
    hash := wHash }

/-- Concrete sink state for witnesses: ZIP initialised, one path checksum
already registered. -/
def wSt : SinkState := ⟨false, true, [], [], ["/x/a.txt"], [], []⟩

/-- Witness for C5: re-storing `/x/a.txt` (outside the loot directory,
already in the added set) fails. -/
theorem store_dedup_and_csv_witness :
    store wCfg wSt "/x/a.txt" (some ⟨[1], "", "", none⟩) none
        = .error "File already added to the archive"
    ∧ (∀ st0 st1 q f c, SinkInv st0 → store wCfg st0 q (some f) c = .ok st1 →
        SinkInv st1 ∧ st1.csvRows.length = st0.csvRows.length + 1) :=
  store_dedup_and_csv wCfg wSt "/x/a.txt" ⟨[1], "", "", none⟩ none
    (by decide) (by decide)

/-! ### C7: ZIP entry compression policy -/

/-- Projections of a successful `add_file_to_zip`: state components other
than the ZIP entries and the removed-files list are untouched. -/
theorem add_file_to_zip_preserves (cfg : SinkConfig) (st st1 : SinkState)
    (p : String) (f : FsFile) (zname : ZipName) (checksum : String)
    (h : add_file_to_zip cfg st p f zname = .ok (st1, checksum)) :
    st1.public_key_set = st.public_key_set
    ∧ st1.zip_initialized = st.zip_initialized
    ∧ st1.csvRows = st.csvRows
    ∧ st1.added_files = st.added_files := by
  by_cases hz : st.zip_initialized
  · by_cases ha : cfg.report_settings.zip_archive.enabled
    · simp [add_file_to_zip, hz, ha] at h
      obtain ⟨h1, -⟩ := h
      rw [← h1]
      exact ⟨rfl, by simp [hz], rfl, rfl⟩
    · simp [add_file_to_zip, hz, ha] at h
  · simp [add_file_to_zip, hz] at h

/-- C7: every entry added to the ZIP archive has compression method ZSTD
exactly when compression is enabled and the file size is at most the
size limit or the size limit is 0, and Stored otherwise; its large-file
flag is set exactly when the file exceeds 2^32 - 1 bytes. -/
theorem zip_entry_policy (cfg : SinkConfig) (st st1 : SinkState) (p : String)
    (file : FsFile) (zname : ZipName) (checksum : String)
    (h : add_file_to_zip cfg st p file zname = .ok (st1, checksum)) :
    ∃ e, st1.zipEntries = st.zipEntries ++ [e]
      ∧ (e.method = CompressionMethod.ZSTD ↔
          (cfg.report_settings.zip_archive.compression.enabled = true
            ∧ (file.content.length ≤ cfg.report_settings.zip_archive.compression.size_limit
               ∨ cfg.report_settings.zip_archive.compression.size_limit = 0)))
      ∧ (e.largeFile = true ↔ 2 ^ 32 - 1 < file.content.length) := by
  by_cases hz : st.zip_initialized
  · by_cases ha : cfg.report_settings.zip_archive.enabled
    · simp [add_file_to_zip, hz, ha] at h
      obtain ⟨h1, -⟩ := h
      rw [← h1]
      refine ⟨_, rfl, ?_, ?_⟩
      · cases hB : (cfg.report_settings.zip_archive.compression.enabled
            && (decide (file.content.length
                  ≤ cfg.report_settings.zip_archive.compression.size_limit)
                || decide (cfg.report_settings.zip_archive.compression.size_limit = 0))) with
        | true =>
          simp only [Bool.and_eq_true, Bool.or_eq_true, decide_eq_true_eq] at hB
          simp [hB]
        | false =>
          have hnp : ¬ (cfg.report_settings.zip_archive.compression.enabled = true
              ∧ (file.content.length ≤ cfg.report_settings.zip_archive.compression.size_limit
                 ∨ cfg.report_settings.zip_archive.compression.size_limit = 0)) := by
            intro hcond
            obtain ⟨hc1, hc2⟩ := hcond
            rw [hc1] at hB
            rcases hc2 with hc2 | hc2 <;> simp [hc2] at hB
          simp [hB, hnp]
      · simp only [decide_eq_true_eq]
        norm_num
    · simp [add_file_to_zip, hz, ha] at h
  · simp [add_file_to_zip, hz] at h

/-- The sink state reached by the witness call to `add_file_to_zip`. -/
def w7St : SinkState :=
  ⟨false, true, [⟨ZipName.storedName "/x/b", CompressionMethod.Stored, false, [1, 2]⟩],
   [], ["/x/a.txt"], [], []⟩

/-- Witness for C7: adding a 2-byte file with compression disabled yields
a Stored, non-large entry. -/
theorem zip_entry_policy_witness :
    ∃ e, w7St.zipEntries = wSt.zipEntries ++ [e]
      ∧ (e.method = CompressionMethod.ZSTD ↔
          (wCfg.report_settings.zip_archive.compression.enabled = true
            ∧ ((⟨[1, 2], "", "", none⟩ : FsFile).content.length
                  ≤ wCfg.report_settings.zip_archive.compression.size_limit
               ∨ wCfg.report_settings.zip_archive.compression.size_limit = 0)))
      ∧ (e.largeFile = true ↔ 2 ^ 32 - 1 < (⟨[1, 2], "", "", none⟩ : FsFile).content.length) :=
  zip_entry_policy wCfg wSt w7St "/x/b" ⟨[1, 2], "", "", none⟩
    (ZipName.storedName "/x/b") "" (by rfl)

/-! ### C9: finish with encryption enabled but no public key -/

/-- The sweep loop of `finish` never changes whether a public key is set. -/
theorem finish_sweep_preserves_public_key (cfg : SinkConfig) :
    ∀ (sweep : List (String × FsFile)) (st : SinkState),
      (sweep.foldl
        (fun acc fr =>
          match add_file_to_zip cfg acc (cfg.report_dir ++ "/" ++ fr.1) fr.2
              (ZipName.sweptName fr.1) with
          | .ok r => r.1
          | .error _ => acc)
        st).public_key_set = st.public_key_set := by
  intro sweep
  induction sweep with
  | nil => intro st; rfl
  | cons x xs ih =>
    intro st
    rw [List.foldl_cons, ih]
    cases hadd : add_file_to_zip cfg st (cfg.report_dir ++ "/" ++ x.1) x.2
        (ZipName.sweptName x.1) with
    | ok r =>
      simp only [hadd]
      exact (add_file_to_zip_preserves cfg st r.1 _ x.2 _ r.2 (by rw [hadd])).1
    | error e => simp only [hadd]

/-- C9: when `finish` runs with the archive enabled, encryption enabled
but no public key set on the sink, it returns Ok without invoking
`encrypt_evidence` (so `report.zip` stays unencrypted) and writes an
`encryption.json` sidecar carrying the configured algorithm together with
empty encrypted_key, iv and tag fields. -/
theorem finish_without_public_key (cfg : SinkConfig) (st : SinkState)
    (sweep : List (String × FsFile))
    (encres : Except String (List ℕ × List ℕ × List ℕ))
    (harch : cfg.report_settings.zip_archive.enabled = true)
    (henc : cfg.report_settings.zip_archive.encryption.enabled = true)
    (hkey : st.public_key_set = false) :
    ∃ stf, finish cfg st sweep encres
        = .ok ⟨stf, some ⟨"1.0", cfg.report_settings.zip_archive.encryption.algorithm,
                          [], [], []⟩, false⟩ := by
  have hpk := finish_sweep_preserves_public_key cfg sweep st
  refine ⟨{ (sweep.foldl
      (fun acc fr =>
        match add_file_to_zip cfg acc (cfg.report_dir ++ "/" ++ fr.1) fr.2
            (ZipName.sweptName fr.1) with
        | .ok r => r.1
        | .error _ => acc)
      st) with zip_initialized := false }, ?_⟩
  simp only [finish, harch, henc]
  simp [hpk, hkey]

/-- Concrete sink configuration for the C9 witness: archive and
encryption enabled. -/
def w9Cfg : SinkConfig :=
  { report_settings :=
      { zip_archive :=
          { enabled := true
            encryption := ⟨true, "keys/pub.pem", Algorithm.AES128GCM⟩
            compression := ⟨false, 0⟩ }
        metadata := ⟨false, false, false⟩ }
    report_dir := "/r"
    loot_dir := "/r/loot_files"
    hash := wHash }

/-- Witness for C9: finishing the witness sink (no public key set). -/
theorem finish_without_public_key_witness :
    ∃ stf, finish w9Cfg wSt [] (.ok ([], [], []))
        = .ok ⟨stf, some ⟨"1.0", w9Cfg.report_settings.zip_archive.encryption.algorithm,
                          [], [], []⟩, false⟩ :=
  finish_without_public_key w9Cfg wSt [] (.ok ([], [], [])) rfl rfl rfl

/-! ### C10: loot files bypass deduplication -/

/-- A successful loot-file `store` with the archive on: the added-files
set is never consulted nor updated, one CSV row and one
`loot_files/<basename>` ZIP entry are appended. -/
theorem store_loot_ok (cfg : SinkConfig) (st : SinkState) (p : String) (f : FsFile)
    (c : Option String)
    (hl : pathStartsWith cfg.loot_dir p = true)
    (ha : cfg.report_settings.zip_archive.enabled = true)
    (hz : st.zip_initialized = true) :
    ∃ st1 e, store cfg st p (some f) c = .ok st1
      ∧ st1.added_files = st.added_files
      ∧ st1.zip_initialized = true
      ∧ st1.csvRows.length = st.csvRows.length + 1
      ∧ st1.zipEntries = st.zipEntries ++ [e]
      ∧ e.name = ZipName.lootName (basename p) := by
  cases hres : store cfg st p (some f) c with
  | error e =>
    simp [store, add_file_to_zip, hl, ha, hz] at hres
  | ok st1 =>
    obtain ⟨hcsv, -, hzi, hcases⟩ := store_ok_shape cfg st st1 p f c hres
    rcases hcases with ⟨-, hadd, ⟨hne, -⟩ | ⟨e, hzip, hname⟩⟩ | ⟨hl2, -, -, -⟩
    · rw [ha] at hne
      exact absurd hne (by simp)
    · exact ⟨st1, e, rfl, hadd, by rw [hzi, hz], hcsv, hzip, hname⟩
    · rw [hl] at hl2
      exact absurd hl2 (by simp)

/-- C10: files under the report's loot directory bypass deduplication:
`store` neither consults nor updates the added-files set for them, so two
loot files with the same basename (even with identical path checksums
already registered) are both stored, producing two CSV rows and two ZIP
entries with the same archive-local name `loot_files/<basename>`. -/
theorem store_loot_bypasses_dedup (cfg : SinkConfig) (st : SinkState)
    (p1 p2 : String) (f1 f2 : FsFile) (c1 c2 : Option String)
    (hl1 : pathStartsWith cfg.loot_dir p1 = true)
    (hl2 : pathStartsWith cfg.loot_dir p2 = true)
    (hbase : basename p2 = basename p1)
    (ha : cfg.report_settings.zip_archive.enabled = true)
    (hz : st.zip_initialized = true) :
    ∃ st1 st2 e1 e2,
      store cfg st p1 (some f1) c1 = .ok st1
      ∧ store cfg st1 p2 (some f2) c2 = .ok st2
      ∧ st1.added_files = st.added_files
      ∧ st2.added_files = st.added_files
      ∧ st2.csvRows.length = st.csvRows.length + 2
      ∧ st2.zipEntries = st.zipEntries ++ [e1, e2]
      ∧ e1.name = ZipName.lootName (basename p1)
      ∧ e2.name = ZipName.lootName (basename p1) := by
  obtain ⟨st1, e1, hok1, hadd1, hz1, hcsv1, hzip1, hn1⟩ :=
    store_loot_ok cfg st p1 f1 c1 hl1 ha hz
  obtain ⟨st2, e2, hok2, hadd2, hz2, hcsv2, hzip2, hn2⟩ :=
    store_loot_ok cfg st1 p2 f2 c2 hl2 ha hz1
  refine ⟨st1, st2, e1, e2, hok1, hok2, hadd1, by rw [hadd2, hadd1],
    by omega, ?_, hn1, by rw [hn2, hbase]⟩
  rw [hzip2, hzip1, List.append_assoc]
  rfl

/-- Witness for C10: two loot files sharing the basename `a.txt`. -/
theorem store_loot_bypasses_dedup_witness :
    ∃ st1 st2 e1 e2,
      store wCfg wSt "/r/loot_files/a.txt" (some ⟨[1], "", "", none⟩) none = .ok st1
      ∧ store wCfg st1 "/r/loot_files/sub/a.txt" (some ⟨[2], "", "", none⟩) none = .ok st2
      ∧ st1.added_files = wSt.added_files
      ∧ st2.added_files = wSt.added_files
      ∧ st2.csvRows.length = wSt.csvRows.length + 2
      ∧ st2.zipEntries = wSt.zipEntries ++ [e1, e2]
      ∧ e1.name = ZipName.lootName (basename "/r/loot_files/a.txt")
      ∧ e2.name = ZipName.lootName (basename "/r/loot_files/a.txt") :=
  store_loot_bypasses_dedup wCfg wSt "/r/loot_files/a.txt" "/r/loot_files/sub/a.txt"
    ⟨[1], "", "", none⟩ ⟨[2], "", "", none⟩ none none
    (by decide) (by decide) (by decide) rfl rfl

/-! ## Unpacker path restoration (src/unpacker/src/main.rs, src/utils/src/sanitize.rs) -/

/-- The characters removed by the sanitize-filename crate's illegal-set
regex (`/?<>\:*|"`). -/
def isIllegalChar (c : Char) : Bool :=
  c = '/' || c = '?' || c = '<' || c = '>' || c = '\\' || c = ':' || c = '*' || c = '|' || c = '"'

/-- The characters removed by the crate's control-character regex
(0x00-0x1f and 0x80-0x9f). -/
def isControlChar (c : Char) : Bool :=
  c.toNat < 32 || (128 ≤ c.toNat && c.toNat ≤ 159)

/-- The crate's Windows trailing-characters regex: strip trailing dots
and spaces. -/
def stripTrailingDotsSpaces (cs : List Char) : List Char :=
  ((cs.reverse).dropWhile (fun c => c = '.' || c = ' ')).reverse

/-- The crate's illegal-character and control-character removal. -/
def sanitizeFilterChars (cs : List Char) : List Char :=
  cs.filter (fun c => !(isIllegalChar c || isControlChar c))

/-- The crate's reserved-name regex `^\.+$`: a non-empty all-dots name is
replaced by the empty replacement. -/
def sanitizeReserved (cs : List Char) : List Char :=
  if cs ≠ [] ∧ cs.all (fun c => c = '.') then [] else cs

/-- The crate's truncation to 255 with `truncate = true`. -/
def sanitizeTruncate (cs : List Char) : List Char :=
  if cs.length ≤ 255 then cs else cs.take 255

/-- `utils::sanitize::sanitize_dirname` over the character sequence:
the sanitize-filename crate with `truncate = true`, `windows = true` and
empty replacement — remove illegal and control characters, blank a
dots-only name, strip trailing dots and spaces, truncate to 255 — then
the wrapper's `replace(" ", "_")`.  (The crate's replacement of the
reserved Windows device names CON/PRN/... by the empty string is not
modelled; it only blanks some further names and has no bearing on the
separator/dot-freedom properties proved here.) -/
def sanitize_dirname_chars (cs : List Char) : List Char :=
  (sanitizeTruncate (stripTrailingDotsSpaces (sanitizeReserved
    (sanitizeFilterChars cs)))).map (fun c => if c = ' ' then '_' else c)

/-- `utils::sanitize::sanitize_dirname`. -/
def sanitize_dirname (s : String) : String := String.mk (sanitize_dirname_chars s.data)

/-- Strip the Windows verbatim prefix from a path string
(`strip_prefix("\\\\?\\")`, i.e. the four characters of the verbatim
marker), step 1 of `path_to_storage_location`. -/
def stripVerbatim : List Char → List Char
  | '\\' :: '\\' :: '?' :: '\\' :: rest => rest
  | cs => cs

/-- `str::split` on the two path separators, producing empty pieces
between adjacent separators, step 2 of `path_to_storage_location`. -/
def splitSeps : List Char → List (List Char)
  | [] => [[]]
  | c :: cs =>
    match splitSeps cs with
    | [] => [[c]]
    | h :: t => if c = '\\' || c = '/' then [] :: h :: t else (c :: h) :: t

/-- A filesystem path: the `absolute` flag stands for a leading root
component and `comps` are the normal components in order
(`Path::starts_with` compares the root first, then the components). -/
structure UPath where
  absolute : Bool
  comps : List String
deriving DecidableEq, Repr

/-- Outcome of `restore_file`. -/
inductive RestoreOutcome where
  | skipExists
  | skipOutside
  | moved (dest : UPath)
deriving DecidableEq, Repr

/-- The source's `components.join(separator)` with the Unix separator. -/
def joinSlash : List (List Char) → List Char
  | [] => []
  | [c] => c
  | c :: rest => c ++ '/' :: joinSlash rest

/-- Split a path string on the Unix separator. -/
def splitSlash : List Char → List (List Char)
  | [] => [[]]
  | c :: cs =>
    match splitSlash cs with
    | [] => [[c]]
    | h :: t => if c = '/' then [] :: h :: t else (c :: h) :: t

/-- The normal components of a path string as a Unix `Path` parses it:
the pieces between separators; empty pieces form no component. -/
def pathComponentsOf (cs : List Char) : List String :=
  ((splitSlash cs).filter (fun c => c ≠ [])).map String.mk

/-- Steps 1-3 of `path_to_storage_location` (unpacker main.rs lines
294-342): strip the verbatim prefix, split on both separators, drop a
leading empty component, and sanitize each component. -/
def unpackerSanitizedComps (file_path : String) : List (List Char) :=
  (match splitSeps (stripVerbatim file_path.data) with
   | [] => []
   | first :: rest => if first = [] then rest else first :: rest).map
    (fun c => sanitize_dirname_chars c)

/-- Step 4 of `path_to_storage_location`: trim a trailing `stored_files`
component from the output path, then `Path::join` the separator-joined
sanitized components onto `<output>/stored_files`.  Rust's `Path::join`
replaces the base entirely when its argument is an absolute path, which
happens exactly when the joined string starts with a separator — that is,
when the leading sanitized component is empty. -/
def path_to_storage_location (file_path : String) (output_path : UPath) : UPath :=
  let joined := joinSlash (unpackerSanitizedComps file_path)
  let outBase := if output_path.comps.getLast? = some "stored_files"
    then output_path.comps.dropLast else output_path.comps
  if joined.head? = some '/' then ⟨true, pathComponentsOf joined⟩
  else ⟨output_path.absolute, outBase ++ ["stored_files"] ++ pathComponentsOf joined⟩

/-- `Path::starts_with` on two paths: same root, then component prefix. -/
def upathStartsWith (base p : UPath) : Bool :=
  (base.absolute == p.absolute) && base.comps.isPrefixOf p.comps

/-- `restore_file` (unpacker main.rs lines 344-383) on the path level:
skip when the destination already exists, skip when the reconstructed
path does not start with the output directory, otherwise move the stored
file to the reconstructed path. -/
def restore_file (output_path : UPath) (destExists : Bool)
    (original_path : String) : RestoreOutcome :=
  let new_path := path_to_storage_location original_path output_path
  if destExists then .skipExists
  else if !(upathStartsWith output_path new_path) then .skipOutside
  else .moved new_path

/-! ### Sanitization safety lemmas -/

theorem head_dropWhile_false (p : Char → Bool) :
    ∀ (l : List Char) (c : Char), (l.dropWhile p).head? = some c → p c = false := by
  intro l
  induction l with
  | nil => intro c h; simp [List.dropWhile] at h
  | cons x xs ih =>
    intro c h
    by_cases hp : p x
    · rw [List.dropWhile_cons_of_pos hp] at h
      exact ih c h
    · rw [List.dropWhile_cons_of_neg hp] at h
      simp at h
      rw [← h]
      simpa using hp

theorem mem_dropWhile (p : Char → Bool) :
    ∀ (l : List Char) (c : Char), c ∈ l.dropWhile p → c ∈ l := by
  intro l
  induction l with
  | nil =>
    intro c h
    simp [List.dropWhile] at h
  | cons x xs ih =>
    intro c h
    by_cases hp : p x
    · rw [List.dropWhile_cons_of_pos hp] at h
      exact List.mem_cons_of_mem _ (ih c h)
    · rwa [List.dropWhile_cons_of_neg hp] at h

/-- A sanitized component contains no path separator and is neither
`..` nor `.`. -/
theorem sanitize_chars_safe (cs : List Char) :
    (∀ c ∈ sanitize_dirname_chars cs, c ≠ '/' ∧ c ≠ '\\')
    ∧ sanitize_dirname_chars cs ≠ ['.', '.']
    ∧ sanitize_dirname_chars cs ≠ ['.'] := by
  have hmain : sanitize_dirname_chars cs
      = (sanitizeTruncate (stripTrailingDotsSpaces (sanitizeReserved
          (sanitizeFilterChars cs)))).map (fun c => if c = ' ' then '_' else c) := rfl
  rw [hmain]
  set s1 := sanitizeFilterChars cs with hs1
  set s2 := sanitizeReserved s1 with hs2
  set s3 := stripTrailingDotsSpaces s2 with hs3
  set s4 := sanitizeTruncate s3 with hs4
  have hmem1 : ∀ c ∈ s1, c ≠ '/' ∧ c ≠ '\\' := by
    intro c hc
    rw [hs1] at hc
    simp only [sanitizeFilterChars] at hc
    have := (List.mem_filter.mp hc).2
    constructor <;> intro hcc <;> subst hcc <;> simp [isIllegalChar] at this
  have hmem2 : ∀ c ∈ s2, c ∈ s1 := by
    intro c hc
    rw [hs2] at hc
    simp only [sanitizeReserved] at hc
    by_cases hcase : s1 ≠ [] ∧ s1.all (fun c => c = '.')
    · rw [if_pos hcase] at hc
      simp at hc
    · rw [if_neg hcase] at hc
      exact hc
  have hmem3 : ∀ c ∈ s3, c ∈ s2 := by
    intro c hc
    rw [hs3, stripTrailingDotsSpaces, List.mem_reverse] at hc
    rw [← List.mem_reverse]
    exact mem_dropWhile _ _ c hc
  have hmem4 : ∀ c ∈ s4, c ∈ s3 := by
    intro c hc
    rw [hs4] at hc
    simp only [sanitizeTruncate] at hc
    by_cases hlen : s3.length ≤ 255
    · rwa [if_pos hlen] at hc
    · rw [if_neg hlen] at hc
      exact List.mem_of_mem_take hc
  have hs3dots : s3 ≠ ['.', '.'] ∧ s3 ≠ ['.'] := by
    constructor <;> intro h3
    · have hrev : s2.reverse.dropWhile (fun c => c = '.' || c = ' ') = ['.', '.'] := by
        have h4 := congrArg List.reverse h3
        rw [hs3, stripTrailingDotsSpaces, List.reverse_reverse] at h4
        simpa using h4
      have := head_dropWhile_false _ _ '.' (by rw [hrev]; rfl)
      simp at this
    · have hrev : s2.reverse.dropWhile (fun c => c = '.' || c = ' ') = ['.'] := by
        have h4 := congrArg List.reverse h3
        rw [hs3, stripTrailingDotsSpaces, List.reverse_reverse] at h4
        simpa using h4
      have := head_dropWhile_false _ _ '.' (by rw [hrev]; rfl)
      simp at this
  have htr : ∀ (l : List Char), s4 = l → s3.length ≤ 255 → s3 = l := by
    intro l hl hle
    rw [hs4] at hl
    simp only [sanitizeTruncate] at hl
    rw [if_pos hle] at hl
    exact hl
  have htrlen : ¬ s3.length ≤ 255 → s4.length = 255 := by
    intro hgt
    rw [hs4]
    simp only [sanitizeTruncate]
    rw [if_neg hgt, List.length_take]
    omega
  have hdot : ∀ (a : Char), (if a = ' ' then '_' else a) = '.' → a = '.' := by
    intro a ha
    by_cases h1 : a = ' '
    · rw [if_pos h1] at ha
      exact absurd ha (by decide)
    · rwa [if_neg h1] at ha
  refine ⟨?_, ?_, ?_⟩
  · intro c hc
    obtain ⟨c0, hc0, hfc⟩ := List.mem_map.mp hc
    by_cases hsp : c0 = ' '
    · rw [← hfc, if_pos hsp]
      constructor <;> decide
    · rw [← hfc, if_neg hsp]
      exact hmem1 c0 (hmem2 c0 (hmem3 c0 (hmem4 c0 hc0)))
  · intro h
    have hlen : s4.length = 2 := by
      have := congrArg List.length h
      simpa using this
    obtain ⟨a, b, hab⟩ := List.length_eq_two.mp hlen
    rw [hab] at h
    simp only [List.map_cons, List.map_nil, List.cons.injEq, and_true] at h
    obtain ⟨ha, hb⟩ := h
    have ha2 : a = '.' := hdot a ha
    have hb2 : b = '.' := hdot b hb
    by_cases hle : s3.length ≤ 255
    · exact hs3dots.1 (htr ['.', '.'] (by rw [hab, ha2, hb2]) hle)
    · have := htrlen hle
      rw [hab] at this
      simp at this
  · intro h
    have hlen : s4.length = 1 := by
      have := congrArg List.length h
      simpa using this
    obtain ⟨a, hab⟩ := List.length_eq_one.mp hlen
    rw [hab] at h
    simp only [List.map_cons, List.map_nil, List.cons.injEq, and_true] at h
    have ha2 : a = '.' := hdot a h
    by_cases hle : s3.length ≤ 255
    · exact hs3dots.2 (htr ['.'] (by rw [hab, ha2]) hle)
    · have := htrlen hle
      rw [hab] at this
      simp at this

/-! ### C6: the derived restoration path -/

/-- C6 (code bug, evaluated at the failing input): when the leading
component of `original_path` sanitizes to the empty string, the source's
`components.join(separator)` yields an absolute path and `Path::join`
then discards the `<output>/stored_files` base entirely.  With output
directory `/r/out` and original path `/:/r/out/evil` (the `:` is removed
by sanitization, leaving an empty leading component) the derived
destination is `/r/out/evil`: it is not rooted under
`<output>/stored_files/`, it passes the starts-with-output guard, and the
stored file is moved there — outside `<output>/stored_files/` — contrary
to the claim, to the function's own comments ("The path has to be
reconstructed inside the storage directory") and to the spec's
path-safety invariant.  A non-colliding absolute derivation (for example
a UNC-style original path) instead fails the guard and is silently
skipped, so restoration is not rooted under `stored_files` either way. -/
theorem restore_escapes_stored_files :
    path_to_storage_location "/:/r/out/evil" ⟨true, ["r", "out"]⟩
        = ⟨true, ["r", "out", "evil"]⟩
    ∧ restore_file ⟨true, ["r", "out"]⟩ false "/:/r/out/evil"
        = .moved ⟨true, ["r", "out", "evil"]⟩
    ∧ List.isPrefixOf ["r", "out", "stored_files"] ["r", "out", "evil"] = false := by
  refine ⟨by decide, by decide, by decide⟩

end IrToolkit
